import Mathlib

/-!
Verification of the micrograd-rs autograd engine.

The development shallowly embeds the two scalar reverse-mode autodiff
implementations of the repository:

* `src/autograd.rs` (struct `Value` wrapped in `Parameter`): the canonical
  engine with the recursive topological sort and the full backward pass.
* `src/lib.rs` (struct `Value` wrapped in `MutValue`, embedded here under the
  `LibRS` namespace): the earlier prototype with a naive single-node
  `backward`.

Modelling conventions:

* The heap of `Rc<RefCell<Value>>` cells is an explicit store, a `List` of
  node records; a `Parameter` handle is the index of its node in the store.
  Freshly allocated nodes are appended at the end, so an index plays the
  role of the `Uuid` in the `hash` field: it is minted at allocation time,
  never changes, and differs from the id of every node allocated before.
* `f64` scalars are embedded as `ℤ`.  The only scalar operations the claims
  involve are `+`, `*`, `max(0, _)` and comparison against `0.0`, all of
  which are exact on integer-valued doubles, and every concrete value in
  the claims (and in the repository's tests of these operations) is a small
  integer, so the integer semantics coincides with the double semantics on
  everything stated here.  (`powf` and the composed division, the genuinely
  floating operations, are outside every claim and are not modelled.)
* Each heap-allocated backward closure is embedded as first-order data
  (`BackClosure`) recording exactly the captures of the Rust closure, and a
  single interpreter `runClosure` that mirrors the closure bodies.  The
  interpreter is parameterised by the sets of node ids the calling context
  currently holds mutable (`mutB`) and shared (`sharedB`) `RefCell` borrows
  on, so that the `try_borrow_mut` / `borrow` / `borrow_mut` outcomes of the
  closure bodies are represented faithfully; a `RefCell` borrow panic, an
  `unwrap` of `None` and `unimplemented!` are the `RtError` outcomes.
* `println!` calls that merely display a node are elided (they do not touch
  the state); the diagnostic messages printed by the `Err` arms of
  `try_borrow_mut` matches are collected in a log.
-/

/-- Embeds `enum Operation` of `src/autograd.rs`. -/
inductive Operation where
  | init
  | add
  | sub
  | mul
  | neg
  | div
  | pow
  | relu
deriving DecidableEq

/-- First-order representation of the backward closures installed by the
operators of `src/autograd.rs`.  Each constructor records the node ids the
Rust closure captures (`a`, `b` parents, `o` the output node) and, for
`mul`, the operand values `da`, `db` read at construction time
(`self_data` / `other_data` in the source). -/
inductive BackClosure where
  | add (a b o : Nat)
  | mul (a b o : Nat) (da db : ℤ)
  | relu (a o : Nat)
deriving DecidableEq

/-- Embeds `struct Value` of `src/autograd.rs`.  The `hash : Uuid` field is
represented by the node's index in the store. -/
structure Value where
  data : ℤ
  grad : ℤ
  backward : Option BackClosure
  previous : List Nat
  op : Operation
deriving DecidableEq

/-- The heap of `Rc<RefCell<Value>>` cells: node `i` lives at index `i`. -/
abbrev Store := List Value

/-- Runtime failures of the Rust code: a `RefCell` borrow panic, an
`Option::unwrap` on `None`, and the `unimplemented!` macro. -/
inductive RtError where
  | borrowPanic
  | unwrapNone
  | unimplemented
deriving DecidableEq

/-- Reading a node out of the store (out-of-range reads never occur on the
stores the operations build; the default keeps the function total). -/
def getNode (s : Store) (i : Nat) : Value :=
  s.getD i ⟨0, 0, none, [], .init⟩

/-- Writing the `grad` field of node `i`. -/
def setGrad (s : Store) (i : Nat) (g : ℤ) : Store :=
  s.set i { getNode s i with grad := g }

/-- `backward.take()`: empty the closure slot of node `i`. -/
def clearBackward (s : Store) (i : Nat) : Store :=
  s.set i { getNode s i with backward := none }

/-- `HashSet::from([x, y])` where hashing and equality are by node id:
duplicates of the same parent collapse to one entry. -/
def dedup2 (a b : Nat) : List Nat :=
  if a = b then [a] else [a, b]

/-- Embeds `Value::from_scalar` of `src/autograd.rs`: allocate a fresh leaf
node and return its handle. -/
def from_scalar (s : Store) (d : ℤ) : Store × Nat :=
  (s ++ [⟨d, 0, none, [], .init⟩], s.length)

/-- Embeds `impl std::ops::Add for Parameter` (graph construction part). -/
def addP (s : Store) (a b : Nat) : Store × Nat :=
  let da := (getNode s a).data
  let db := (getNode s b).data
  (s ++ [⟨da + db, 0, some (.add a b s.length), dedup2 a b, .add⟩], s.length)

/-- Embeds `impl std::ops::Mul for Parameter` (graph construction part);
the closure captures `self_data` and `other_data` read at construction. -/
def mulP (s : Store) (a b : Nat) : Store × Nat :=
  let da := (getNode s a).data
  let db := (getNode s b).data
  (s ++ [⟨da * db, 0, some (.mul a b s.length da db), dedup2 a b, .mul⟩], s.length)

/-- Embeds `Parameter::relu` (graph construction part): the forward value is
`if data < 0.0 { 0.0 } else { data }`. -/
def reluP (s : Store) (a : Nat) : Store × Nat :=
  let da := (getNode s a).data
  (s ++ [⟨if da < 0 then 0 else da, 0, some (.relu a s.length), [a], .relu⟩], s.length)

/-- Embeds `impl std::ops::AddAssign for Parameter`: the body is
`unimplemented!("below does not work")`, an unconditional panic before any
node is built or any operand is touched. -/
def addAssignP (_s : Store) (_a _b : Nat) : Except RtError (Store × Nat) :=
  .error .unimplemented

/-- One arm of the `Add` backward closure for parent `p` and output `o`:
`match self.0.try_borrow_mut() { Ok(mut sref) => sref.grad += out_ref.borrow().grad,
Err(_) => println!("Add: already borrowed: ...", self.0.borrow().hash) }`.
`mutB` / `sharedB` are the node ids the surrounding context holds mutable /
shared borrows on. -/
def armAdd (mutB sharedB : List Nat) (s : Store) (p o : Nat) :
    Except RtError (Store × List String) :=
  if p ∈ mutB ∨ p ∈ sharedB then
    -- try_borrow_mut failed; the println itself takes a shared borrow of p
    if p ∈ mutB then .error .borrowPanic
    else .ok (s, ["Add: already borrowed"])
  else
    -- Ok arm: p is mutably borrowed while out_ref.borrow() is taken
    if o ∈ mutB ∨ o = p then .error .borrowPanic
    else .ok (setGrad s p ((getNode s p).grad + (getNode s o).grad), [])

/-- One arm of the `Mul` backward closure for parent `p`, output `o` and the
captured value `otherData` of the opposite operand:
`sref.grad += other_data * out_ref.borrow().grad` on success. -/
def armMul (mutB sharedB : List Nat) (s : Store) (p o : Nat) (otherData : ℤ) :
    Except RtError (Store × List String) :=
  if p ∈ mutB ∨ p ∈ sharedB then
    if p ∈ mutB then .error .borrowPanic
    else .ok (s, ["Mul: already borrowed"])
  else
    if o ∈ mutB ∨ o = p then .error .borrowPanic
    else .ok (setGrad s p ((getNode s p).grad + otherData * (getNode s o).grad), [])

/-- Interpreter for the backward closures of `src/autograd.rs`, mirroring
the closure bodies statement by statement. -/
def runClosure (mutB sharedB : List Nat) (s : Store) (c : BackClosure) :
    Except RtError (Store × List String) :=
  match c with
  | .add a b o =>
    match armAdd mutB sharedB s a o with
    | .error e => .error e
    | .ok (s1, l1) =>
      match armAdd mutB sharedB s1 b o with
      | .error e => .error e
      | .ok (s2, l2) => .ok (s2, l1 ++ l2)
  | .mul a b o da db =>
    match armMul mutB sharedB s a o db with
    | .error e => .error e
    | .ok (s1, l1) =>
      match armMul mutB sharedB s1 b o da with
      | .error e => .error e
      | .ok (s2, l2) => .ok (s2, l1 ++ l2)
  | .relu a o =>
    -- let out_ref = out_ref.borrow(); (shared borrow of o) then
    -- self.0.borrow_mut() (plain borrow_mut of a, panics on any conflict)
    if o ∈ mutB then .error .borrowPanic
    else if a ∈ mutB ∨ a ∈ sharedB ∨ a = o then .error .borrowPanic
    else
      .ok (setGrad s a ((getNode s a).grad +
            (if 0 < (getNode s o).data then (getNode s o).grad else 0)), [])

/-- The `previous.iter().for_each(|child| build_topo(child, ...))` loop of
`fn build_topo`: run `step` (the recursive call at one unit less fuel) on
every child in order, threading the `(topo, visited)` accumulator pair. -/
def buildTopoL (step : Nat → List Nat × List Nat → List Nat × List Nat) :
    List Nat → List Nat × List Nat → List Nat × List Nat
  | [], st => st
  | p :: rest, st => buildTopoL step rest (step p st)

/-- Embeds `fn build_topo` of `src/autograd.rs`: depth-first post-order over
the `previous` relation with a `visited` set of ids.  The Rust recursion is
bounded because every node is marked visited before its parents are
explored; the embedding makes that bound explicit as `fuel`.  On every store
whose nodes only list smaller ids as parents (which all stores built by the
operations are), `fuel = root + 1` is never exhausted. -/
def buildTopo (s : Store) : Nat → Nat → List Nat × List Nat → List Nat × List Nat
  | 0, _, st => st
  | f + 1, i, st =>
    if i ∈ st.2 then st
    else
      let st1 := buildTopoL (buildTopo s f) (getNode s i).previous (st.1, i :: st.2)
      (st1.1 ++ [i], st1.2)

/-- The topological order `Parameter::backward` computes for the terminal
handle `r`: `build_topo(self.clone(), &mut topo_nodes, &mut visited_nodes)`
starting from empty accumulators. -/
def buildTopoFull (s : Store) (r : Nat) : List Nat :=
  (buildTopo s (r + 1) r ([], [])).1

/-- Embeds `Parameter::_backward`: take the closure out of the node's slot
and run it if it was present (the display println is elided). -/
def stepBackward (s : Store) (n : Nat) : Except RtError (Store × List String) :=
  let c := (getNode s n).backward
  let s1 := clearBackward s n
  match c with
  | none => .ok (s1, [])
  | some cl => runClosure [] [] s1 cl

/-- The `topo_nodes.iter().rev().for_each(|value| value._backward())` loop. -/
def runNodes (s : Store) : List Nat → Except RtError (Store × List String)
  | [] => .ok (s, [])
  | n :: rest =>
    match stepBackward s n with
    | .error e => .error e
    | .ok (s1, l1) =>
      match runNodes s1 rest with
      | .error e => .error e
      | .ok (s2, l2) => .ok (s2, l1 ++ l2)

/-- Embeds `Parameter::backward`: build the topological order, seed the
terminal gradient to 1.0, then run `_backward` on every node in reverse
topological order. -/
def backwardPass (s : Store) (r : Nat) : Except RtError (Store × List String) :=
  let topo := buildTopoFull s r
  let s1 := setGrad s r 1
  runNodes s1 topo.reverse

/-- The forward value of node `i` after a run, `none` if the run panicked. -/
def resultData (r : Except RtError (Store × List String)) (i : Nat) : Option ℤ :=
  match r with
  | .ok (s, _) => some (getNode s i).data
  | .error _ => none

/-- The gradient of node `i` after a run, `none` if the run panicked. -/
def resultGrad (r : Except RtError (Store × List String)) (i : Nat) : Option ℤ :=
  match r with
  | .ok (s, _) => some (getNode s i).grad
  | .error _ => none

/-- The diagnostic lines printed during a run, `none` if the run panicked. -/
def resultLog (r : Except RtError (Store × List String)) : Option (List String) :=
  match r with
  | .ok (_, l) => some l
  | .error _ => none

/-- Stores built by the operations only ever list already-existing nodes as
parents, so every parent id is strictly smaller than its child's id. -/
def WFStore (s : Store) : Prop :=
  ∀ i, i < s.length → ∀ p ∈ (getNode s i).previous, p < i

instance : DecidablePred WFStore := fun s => by
  unfold WFStore; infer_instance

/-- Reachability through the `previous` (parents) relation. -/
inductive Reach (s : Store) (r : Nat) : Nat → Prop where
  | refl : Reach s r r
  | tail {j p : Nat} : Reach s r j → p ∈ (getNode s j).previous → Reach s r p

namespace LibRS

/-!
Embedding of the earlier prototype in `src/lib.rs` (`Value` / `MutValue`).
Only the parts the claims cite are embedded: `from_scalar`, the `Mul`
operator of `impl std::ops::Mul for MutValue`, and `MutValue::backward`.
Its closures take plain (panicking) `borrow_mut` borrows and its `Mul`
closure reads `self.grad *= out_ref.borrow().grad;
other.grad *= out_ref.borrow().grad` — it scales the parents' gradients by
the output gradient instead of accumulating the chain-rule product. -/

/-- Embeds `enum Operation` of `src/lib.rs`. -/
inductive Op where
  | init
  | add
  | mul
  | relu
deriving DecidableEq

/-- Backward closures of `src/lib.rs` (they capture only handles). -/
inductive Closure where
  | add (a b o : Nat)
  | mul (a b o : Nat)
  | relu (a o : Nat)
deriving DecidableEq

/-- Embeds `struct Value` of `src/lib.rs`. -/
structure Value where
  data : ℤ
  grad : ℤ
  backward : Option Closure
  previous : List Nat
  op : Op
deriving DecidableEq

abbrev Store := List Value

def getNode (s : Store) (i : Nat) : Value :=
  s.getD i ⟨0, 0, none, [], .init⟩

def setGrad (s : Store) (i : Nat) (g : ℤ) : Store :=
  s.set i { getNode s i with grad := g }

def clearBackward (s : Store) (i : Nat) : Store :=
  s.set i { getNode s i with backward := none }

/-- Embeds `Value::from_scalar` of `src/lib.rs`. -/
def from_scalar (s : Store) (d : ℤ) : Store × Nat :=
  (s ++ [⟨d, 0, none, [], .init⟩], s.length)

/-- Embeds `impl std::ops::Mul for MutValue` (construction part).  Note the
source tags the node `Operation::Mul` and deduplicates the parent set by
id, exactly like the `Parameter` version. -/
def mul (s : Store) (a b : Nat) : Store × Nat :=
  let da := (getNode s a).data
  let db := (getNode s b).data
  (s ++ [⟨da * db, 0, some (.mul a b s.length), dedup2 a b, .mul⟩], s.length)

/-- Interpreter for the closures of `src/lib.rs`.  All borrows are the
panicking kind, so an output node aliased with a parent is a panic; the
`mul` closure multiplies each parent's gradient by the output gradient. -/
def runClosure (s : Store) (c : Closure) : Except RtError (Store × List String) :=
  match c with
  | .add a b o =>
    if o = a then .error .borrowPanic
    else
      let s1 := setGrad s a ((getNode s a).grad + (getNode s o).grad)
      if o = b then .error .borrowPanic
      else .ok (setGrad s1 b ((getNode s1 b).grad + (getNode s1 o).grad), [])
  | .mul a b o =>
    if o = a then .error .borrowPanic
    else
      let s1 := setGrad s a ((getNode s a).grad * (getNode s o).grad)
      if o = b then .error .borrowPanic
      else .ok (setGrad s1 b ((getNode s1 b).grad * (getNode s1 o).grad), [])
  | .relu a o =>
    if a = o then .error .borrowPanic
    else
      .ok (setGrad s a ((getNode s a).grad +
            (if 0 < (getNode s o).data then (getNode s o).grad else 0)), [])

/-- Embeds `MutValue::backward` of `src/lib.rs`:
`let backward_pass = self.0.borrow_mut().backward.take().unwrap();
backward_pass()`.  The `unwrap` panics when the node has no closure. -/
def backward (s : Store) (i : Nat) : Except RtError (Store × List String) :=
  match (getNode s i).backward with
  | none => .error .unwrapNone
  | some c => runClosure (clearBackward s i) c

/-- The gradient of node `i` after a run, `none` if the run panicked. -/
def resultGrad (r : Except RtError (Store × List String)) (i : Nat) : Option ℤ :=
  match r with
  | .ok (s, _) => some (getNode s i).grad
  | .error _ => none

end LibRS

/-- The graph of `test_sanity_check` in `src/autograd.rs`, built exactly in
the Rust evaluation order:
`x = from_scalar(-4)` (node 0); `z = 2*x + 2 + x` (nodes 1..5, `z` = 5);
`q = relu(z) + z*x` (nodes 6..8, `q` = 8); `h = relu(z*z)` (nodes 9..10,
`h` = 10); `y = h + q + q*x` (nodes 11..13, `y` = 13). -/
def sanityStore : Store :=
  let s : Store := []
  let (s, x) := from_scalar s (-4)
  let (s, two1) := from_scalar s 2
  let (s, m1) := mulP s two1 x
  let (s, two2) := from_scalar s 2
  let (s, a1) := addP s m1 two2
  let (s, z) := addP s a1 x
  let (s, r1) := reluP s z
  let (s, m2) := mulP s z x
  let (s, q) := addP s r1 m2
  let (s, m3) := mulP s z z
  let (s, h) := reluP s m3
  let (s, a2) := addP s h q
  let (s, m4) := mulP s q x
  let (s, _y) := addP s a2 m4
  s

/-- A store mid-backward-pass for exercising one `Add` closure in isolation:
two leaves (ids 0 and 1, forward values 3 and 4, gradients 5 and 7 already
accumulated from other consumers) and their sum node (id 2) whose gradient
has been seeded to 1. -/
def addConflictStore : Store :=
  [⟨3, 5, none, [], .init⟩,
   ⟨4, 7, none, [], .init⟩,
   ⟨7, 1, some (.add 0 1 2), [0, 1], .add⟩]

/-- A `src/lib.rs` store mid-backward-pass for exercising its `Mul`
closure: leaves 0 and 1 with forward values 3 and 5 (leaf 0 has gradient 2
already accumulated from another consumer), and their product node (id 2)
with gradient 1. -/
def mulScaleStore : LibRS.Store :=
  let s : LibRS.Store := []
  let (s, a) := LibRS.from_scalar s 3
  let (s, b) := LibRS.from_scalar s 5
  let (s, o) := LibRS.mul s a b
  LibRS.setGrad (LibRS.setGrad s a 2) o 1

/-- Invariant of the accumulator pair of `build_topo`: the emitted order is
duplicate-free, only visited nodes are emitted, and every emitted node's
parents are emitted strictly earlier. -/
def TopoInv (s : Store) (topo visited : List Nat) : Prop :=
  topo.Nodup ∧ (∀ n ∈ topo, n ∈ visited) ∧
  ∀ n ∈ topo, ∀ p ∈ (getNode s n).previous,
    p ∈ topo ∧ topo.indexOf p < topo.indexOf n

/-- How one `build_topo` call extends the accumulator pair `st` into `st'`:
the emitted order grows by the suffix of newly emitted nodes, the visited
set grows by exactly those nodes, the new nodes were unvisited before, and
the invariant holds again. -/
def TopoExt (s : Store) (st st' : List Nat × List Nat) (newNodes : List Nat) : Prop :=
  st'.1 = st.1 ++ newNodes ∧
  (∀ x, x ∈ st'.2 ↔ x ∈ st.2 ∨ x ∈ newNodes) ∧
  (∀ x ∈ newNodes, x ∉ st.2) ∧
  TopoInv s st'.1 st'.2

/-- A pass step preserves everything about a node except possibly its
`grad` and `backward` fields: no node is created or destroyed and `data`,
`previous` and `op` are untouched. -/
def PreservesShape (s t : Store) : Prop :=
  t.length = s.length ∧
  ∀ i, (getNode t i).data = (getNode s i).data ∧
    (getNode t i).previous = (getNode s i).previous ∧
    (getNode t i).op = (getNode s i).op

/-! ### Store access lemmas -/

theorem length_setGrad (s : Store) (i : Nat) (g : ℤ) :
    (setGrad s i g).length = s.length := by
  simp [setGrad]

theorem length_clearBackward (s : Store) (i : Nat) :
    (clearBackward s i).length = s.length := by
  simp [clearBackward]

theorem getNode_set_self {s : Store} {i : Nat} (h : i < s.length) (v : Value) :
    getNode (s.set i v) i = v := by
  simp [getNode, List.getD_eq_getElem?_getD, List.getElem?_set_self h]

theorem getNode_set_ne {i j : Nat} (h : i ≠ j) (s : Store) (v : Value) :
    getNode (s.set i v) j = getNode s j := by
  simp [getNode, List.getD_eq_getElem?_getD, List.getElem?_set_ne h]

theorem getNode_setGrad_self {s : Store} {i : Nat} (h : i < s.length) (g : ℤ) :
    getNode (setGrad s i g) i = { getNode s i with grad := g } :=
  getNode_set_self h _

theorem getNode_setGrad_ne {i j : Nat} (h : i ≠ j) (s : Store) (g : ℤ) :
    getNode (setGrad s i g) j = getNode s j :=
  getNode_set_ne h s _

theorem getNode_clearBackward_ne {i j : Nat} (h : i ≠ j) (s : Store) :
    getNode (clearBackward s i) j = getNode s j :=
  getNode_set_ne h s _

theorem backward_clearBackward_self (s : Store) (i : Nat) :
    (getNode (clearBackward s i) i).backward = none := by
  rcases Nat.lt_or_ge i s.length with h | h
  · rw [clearBackward, getNode_set_self h]
  · rw [clearBackward, List.set_eq_of_length_le h]
    unfold getNode
    rw [List.getD_eq_getElem?_getD, List.getElem?_eq_none (by simpa using h)]
    rfl

theorem data_setGrad (s : Store) (i : Nat) (g : ℤ) (j : Nat) :
    (getNode (setGrad s i g) j).data = (getNode s j).data := by
  rcases eq_or_ne i j with rfl | h
  · rcases Nat.lt_or_ge i s.length with h | h
    · rw [getNode_setGrad_self h]
    · rw [setGrad, List.set_eq_of_length_le h]
  · rw [getNode_setGrad_ne h]

theorem previous_setGrad (s : Store) (i : Nat) (g : ℤ) (j : Nat) :
    (getNode (setGrad s i g) j).previous = (getNode s j).previous := by
  rcases eq_or_ne i j with rfl | h
  · rcases Nat.lt_or_ge i s.length with h | h
    · rw [getNode_setGrad_self h]
    · rw [setGrad, List.set_eq_of_length_le h]
  · rw [getNode_setGrad_ne h]

theorem op_setGrad (s : Store) (i : Nat) (g : ℤ) (j : Nat) :
    (getNode (setGrad s i g) j).op = (getNode s j).op := by
  rcases eq_or_ne i j with rfl | h
  · rcases Nat.lt_or_ge i s.length with h | h
    · rw [getNode_setGrad_self h]
    · rw [setGrad, List.set_eq_of_length_le h]
  · rw [getNode_setGrad_ne h]

theorem backward_setGrad (s : Store) (i : Nat) (g : ℤ) (j : Nat) :
    (getNode (setGrad s i g) j).backward = (getNode s j).backward := by
  rcases eq_or_ne i j with rfl | h
  · rcases Nat.lt_or_ge i s.length with h | h
    · rw [getNode_setGrad_self h]
    · rw [setGrad, List.set_eq_of_length_le h]
  · rw [getNode_setGrad_ne h]

theorem data_clearBackward (s : Store) (i : Nat) (j : Nat) :
    (getNode (clearBackward s i) j).data = (getNode s j).data := by
  rcases eq_or_ne i j with rfl | h
  · rcases Nat.lt_or_ge i s.length with h | h
    · rw [clearBackward, getNode_set_self h]
    · rw [clearBackward, List.set_eq_of_length_le h]
  · rw [getNode_clearBackward_ne h]

theorem grad_clearBackward (s : Store) (i : Nat) (j : Nat) :
    (getNode (clearBackward s i) j).grad = (getNode s j).grad := by
  rcases eq_or_ne i j with rfl | h
  · rcases Nat.lt_or_ge i s.length with h | h
    · rw [clearBackward, getNode_set_self h]
    · rw [clearBackward, List.set_eq_of_length_le h]
  · rw [getNode_clearBackward_ne h]

theorem previous_clearBackward (s : Store) (i : Nat) (j : Nat) :
    (getNode (clearBackward s i) j).previous = (getNode s j).previous := by
  rcases eq_or_ne i j with rfl | h
  · rcases Nat.lt_or_ge i s.length with h | h
    · rw [clearBackward, getNode_set_self h]
    · rw [clearBackward, List.set_eq_of_length_le h]
  · rw [getNode_clearBackward_ne h]

theorem op_clearBackward (s : Store) (i : Nat) (j : Nat) :
    (getNode (clearBackward s i) j).op = (getNode s j).op := by
  rcases eq_or_ne i j with rfl | h
  · rcases Nat.lt_or_ge i s.length with h | h
    · rw [clearBackward, getNode_set_self h]
    · rw [clearBackward, List.set_eq_of_length_le h]
  · rw [getNode_clearBackward_ne h]

theorem backward_clearBackward_mono {s : Store} {j : Nat}
    (h : (getNode s j).backward = none) (i : Nat) :
    (getNode (clearBackward s i) j).backward = none := by
  rcases eq_or_ne i j with rfl | hne
  · exact backward_clearBackward_self s i
  · rw [getNode_clearBackward_ne hne, h]

theorem getNode_append_lt {s : Store} {i : Nat} (h : i < s.length) (v : Value) :
    getNode (s ++ [v]) i = getNode s i := by
  simp [getNode, List.getD_eq_getElem?_getD, List.getElem?_append, h]

theorem getNode_append_self (s : Store) (v : Value) :
    getNode (s ++ [v]) s.length = v := by
  simp [getNode, List.getD_eq_getElem?_getD, List.getElem?_concat_length]

theorem getNode_eq_getElem {s : Store} {i : Nat} (h : i < s.length) :
    getNode s i = s[i] := by
  rw [getNode, List.getD_eq_getElem?_getD, List.getElem?_eq_getElem h]
  rfl

theorem clearBackward_of_none {s : Store} {i : Nat}
    (h : (getNode s i).backward = none) : clearBackward s i = s := by
  rcases Nat.lt_or_ge i s.length with hl | hl
  · apply List.ext_getElem?
    intro n
    rcases eq_or_ne i n with rfl | hne
    · rw [clearBackward, List.getElem?_set_self hl, List.getElem?_eq_getElem hl,
        ← getNode_eq_getElem hl, ← h]
    · rw [clearBackward, List.getElem?_set_ne hne]
  · rw [clearBackward, List.set_eq_of_length_le hl]

/-! ### Claim theorems on concrete runs -/

/-- Claim C1: on the graph of `test_sanity_check` (`x = from_scalar(-4)`;
`z = 2*x + 2 + x`; `q = relu(z) + z*x`; `h = relu(z*z)`; `y = h + q + q*x`,
node 13 being `y` and node 0 being `x`), running `backward()` on `y` gives
forward value `y.data = -20` and accumulated gradient `x.grad = 46`. -/
theorem sanity_check_backward :
    resultData (backwardPass sanityStore 13) 13 = some (-20) ∧
    resultGrad (backwardPass sanityStore 13) 0 = some 46 := by
  decide

/-- Claim C10: the `AddAssign` operator of `src/autograd.rs` panics with
`unimplemented!` on every pair of handles; no node is built and no state is
returned (the embedding returns only the error). -/
theorem add_assign_unimplemented (s : Store) (a b : Nat) :
    addAssignP s a b = .error .unimplemented := rfl

/-- Claim C7, counterexample: an `Add` backward closure run while another
shared borrow of parent 0 is outstanding (so `try_borrow_mut` fails on it)
does NOT abort or propagate a fatal error: it completes normally with an
`.ok` result, leaves parent 0's gradient untouched (the contribution is
silently skipped, only a diagnostic line is printed) and still applies the
other parent's contribution (7 + 1 = 8). -/
theorem add_closure_conflict_is_silent :
    resultGrad (runClosure [] [0] addConflictStore (.add 0 1 2)) 0 = some 5 ∧
    resultGrad (runClosure [] [0] addConflictStore (.add 0 1 2)) 1 = some 8 ∧
    resultLog (runClosure [] [0] addConflictStore (.add 0 1 2)) =
      some ["Add: already borrowed"] := by
  decide

/-- Claim C6, counterexample: `MutValue::backward` of `src/lib.rs` on a
fresh leaf built by `from_scalar` panics (it `unwrap`s the absent backward
closure) instead of seeding the gradient: the claim that invoking
`backward()` on a handle with no forward history never panics is false for
this implementation. -/
theorem librs_backward_leaf_panics :
    LibRS.backward (LibRS.from_scalar [] 5).1 (LibRS.from_scalar [] 5).2 =
      .error .unwrapNone := rfl

/-- Claim C2: the `Mul` backward closure of `src/lib.rs` (`MutValue`)
multiplies each parent's gradient by the output gradient (`grad *=
out.grad`) instead of accumulating `other operand's value * out.grad`.  On
the concrete product `3 * 5` (node 2, gradient seeded to 1) with parent 0
holding gradient 2 from a previous consumer, running the closure leaves
parent 0 with gradient `2 * 1 = 2`, not the claimed `2 + 5 * 1 = 7`. -/
theorem librs_mul_closure_scales :
    LibRS.resultGrad (LibRS.backward mulScaleStore 2) 0 =
      some ((LibRS.getNode mulScaleStore 0).grad *
        (LibRS.getNode mulScaleStore 2).grad) ∧
    LibRS.resultGrad (LibRS.backward mulScaleStore 2) 0 ≠
      some ((LibRS.getNode mulScaleStore 0).grad +
        (LibRS.getNode mulScaleStore 1).data * (LibRS.getNode mulScaleStore 2).grad) := by
  decide

/-! ### Unfolding helpers for symbolic stores -/

theorem buildTopo_of_mem {s : Store} {i : Nat} {st : List Nat × List Nat}
    (h : i ∈ st.2) (fuel : Nat) : buildTopo s fuel i st = st := by
  cases fuel with
  | zero => rfl
  | succ f => simp [buildTopo, h]

theorem buildTopo_succ (s : Store) {fuel : Nat} (h : fuel ≠ 0) {i : Nat}
    {st : List Nat × List Nat} (hm : i ∉ st.2) :
    buildTopo s fuel i st =
      ((buildTopoL (buildTopo s (fuel - 1)) (getNode s i).previous
          (st.1, i :: st.2)).1 ++ [i],
       (buildTopoL (buildTopo s (fuel - 1)) (getNode s i).previous
          (st.1, i :: st.2)).2) := by
  obtain ⟨f, rfl⟩ := Nat.exists_eq_succ_of_ne_zero h
  simp [buildTopo, hm]

theorem buildTopo_leaf {s : Store} {i : Nat} (hp : (getNode s i).previous = [])
    {st : List Nat × List Nat} (hm : i ∉ st.2) {fuel : Nat} (h : fuel ≠ 0) :
    buildTopo s fuel i st = (st.1 ++ [i], i :: st.2) := by
  rw [buildTopo_succ s h hm, hp]
  rfl

theorem stepBackward_of_none {s : Store} {n : Nat}
    (h : (getNode s n).backward = none) :
    stepBackward s n = .ok (clearBackward s n, []) := by
  simp [stepBackward, h]

theorem stepBackward_of_some {s : Store} {n : Nat} {c : BackClosure}
    (h : (getNode s n).backward = some c) :
    stepBackward s n = runClosure [] [] (clearBackward s n) c := by
  simp [stepBackward, h]

/-! ### Claim C8: the from_scalar contract -/

/-- Claim C8: `from_scalar(v)` appends a fresh leaf node with value `v`,
gradient 0, no backward closure, empty parent set and the `Init` tag; its
id is the next free index, distinct from the id of every existing node,
and no existing node is touched. -/
theorem from_scalar_contract (s : Store) (v : ℤ) :
    (from_scalar s v).2 = s.length ∧
    getNode (from_scalar s v).1 (from_scalar s v).2 = ⟨v, 0, none, [], .init⟩ ∧
    (from_scalar s v).1.length = s.length + 1 ∧
    (∀ j, j < s.length →
      (from_scalar s v).2 ≠ j ∧ getNode (from_scalar s v).1 j = getNode s j) := by
  refine ⟨rfl, getNode_append_self s _, by simp [from_scalar],
    fun j hj => ⟨Nat.ne_of_gt hj, getNode_append_lt hj _⟩⟩

/-- Spot check of `from_scalar_contract` on a one-node store. -/
theorem from_scalar_contract_spot :
    getNode (from_scalar [⟨9, 0, none, [], .init⟩] 7).1
        (from_scalar [⟨9, 0, none, [], .init⟩] 7).2 = ⟨7, 0, none, [], .init⟩ ∧
    (from_scalar [⟨9, 0, none, [], .init⟩] 7).2 ≠ 0 :=
  ⟨(from_scalar_contract [⟨9, 0, none, [], .init⟩] 7).2.1,
   ((from_scalar_contract [⟨9, 0, none, [], .init⟩] 7).2.2.2 0 (by decide)).1⟩

/-! ### Claim C7 (amended) and Claim C6 (amended) -/

/-- Claim C7, amended behaviour of a borrow conflict inside the `Add`
backward closure: if the outstanding borrow on parent `a` is an exclusive
one, the `Err` arm's own diagnostic borrow panics; if it is a shared one,
the closure completes normally, prints the diagnostic, silently skips
parent `a`'s gradient contribution and still applies parent `b`'s. -/
theorem add_closure_conflict_semantics (s : Store) (a b o : Nat)
    (hb : b < s.length) (hba : b ≠ a) (hob : o ≠ b) :
    runClosure [a] [] s (.add a b o) = .error .borrowPanic ∧
    resultGrad (runClosure [] [a] s (.add a b o)) a = some (getNode s a).grad ∧
    resultGrad (runClosure [] [a] s (.add a b o)) b =
      some ((getNode s b).grad + (getNode s o).grad) ∧
    resultLog (runClosure [] [a] s (.add a b o)) =
      some ["Add: already borrowed"] := by
  have h1 : armAdd [a] [] s a o = .error .borrowPanic := by
    simp [armAdd]
  have h2 : armAdd [] [a] s a o = .ok (s, ["Add: already borrowed"]) := by
    simp [armAdd]
  have h3 : armAdd [] [a] s b o =
      .ok (setGrad s b ((getNode s b).grad + (getNode s o).grad), []) := by
    simp [armAdd, hba, hob]
  refine ⟨by simp [runClosure, h1], ?_, ?_, ?_⟩
  · simp [runClosure, h2, h3, resultGrad, getNode_setGrad_ne hba]
  · simp [runClosure, h2, h3, resultGrad, getNode_setGrad_self hb]
  · simp [runClosure, h2, h3, resultLog]

/-- Spot check of `add_closure_conflict_semantics` on `addConflictStore`
with an exclusive outstanding borrow of parent 0. -/
theorem add_closure_conflict_semantics_spot :
    runClosure [0] [] addConflictStore (.add 0 1 2) = .error .borrowPanic :=
  (add_closure_conflict_semantics addConflictStore 0 1 2 (by decide) (by decide)
    (by decide)).1

/-- Claim C6, amended: `Parameter::backward` of `src/autograd.rs` on a
fresh leaf built by `from_scalar` is not an error: the pass returns
normally, the resulting store is exactly the input store with that single
node's gradient seeded to 1.0 (no other mutation at all), and the leaf
keeps its value, empty parent set and absent closure. -/
theorem backward_on_fresh_leaf (s : Store) (v : ℤ) :
    backwardPass (from_scalar s v).1 (from_scalar s v).2 =
      .ok (setGrad (from_scalar s v).1 (from_scalar s v).2 1, []) ∧
    getNode (setGrad (from_scalar s v).1 (from_scalar s v).2 1)
      (from_scalar s v).2 = ⟨v, 1, none, [], .init⟩ := by
  have hx : (from_scalar s v).2 = s.length := rfl
  have hnode : getNode (from_scalar s v).1 s.length = ⟨v, 0, none, [], .init⟩ :=
    getNode_append_self s _
  have hlt : s.length < (from_scalar s v).1.length := by
    simp [from_scalar]
  have hprev : (getNode (from_scalar s v).1 s.length).previous = [] := by
    rw [hnode]
  have htopo : buildTopoFull (from_scalar s v).1 s.length = [s.length] := by
    rw [buildTopoFull, buildTopo_leaf hprev (by simp) (Nat.succ_ne_zero _)]
    rfl
  have hbw : (getNode (setGrad (from_scalar s v).1 s.length 1) s.length).backward
      = none := by
    rw [backward_setGrad, hnode]
  constructor
  · rw [hx, backwardPass, htopo]
    simp only [List.reverse_singleton, runNodes, stepBackward_of_none hbw,
      clearBackward_of_none hbw]
    rfl
  · rw [hx, getNode_setGrad_self hlt, hnode]

/-! ### Claim C5: rectifier boundary at exactly zero -/

/-- Claim C5: passing a handle whose forward value is exactly 0.0 through
`relu` yields a node with forward value 0.0, and running `backward()` on
that rectifier node leaves the parent's gradient unchanged: the closure's
gate `out.data > 0.0` is false, so the propagated contribution is exactly
0.0.  The parent is a leaf as built by `from_scalar` (empty parents, no
closure); its prior gradient is arbitrary. -/
theorem relu_at_zero (s : Store) (a : Nat) (ha : a < s.length)
    (hdata : (getNode s a).data = 0) (hprev : (getNode s a).previous = [])
    (hbk : (getNode s a).backward = none) :
    (getNode (reluP s a).1 (reluP s a).2).data = 0 ∧
    resultGrad (backwardPass (reluP s a).1 (reluP s a).2) a =
      some (getNode s a).grad := by
  have hao : a ≠ s.length := Nat.ne_of_lt ha
  have hoa : s.length ≠ a := Nat.ne_of_gt ha
  have hs1 : (reluP s a).1 = s ++
      [⟨if (getNode s a).data < 0 then 0 else (getNode s a).data, 0,
        some (.relu a s.length), [a], .relu⟩] := rfl
  have hnode : getNode (reluP s a).1 s.length =
      ⟨0, 0, some (.relu a s.length), [a], .relu⟩ := by
    rw [hs1, getNode_append_self, hdata]
    norm_num
  have hleaf : getNode (reluP s a).1 a = getNode s a := by
    rw [hs1, getNode_append_lt ha]
  have hlen : (reluP s a).1.length = s.length + 1 := by
    rw [hs1]
    simp
  have hstep : buildTopo (reluP s a).1 s.length a ([], [s.length]) =
      ([a], [a, s.length]) := by
    rw [buildTopo_leaf (by rw [hleaf, hprev]) (by simp [hao]) (by omega)]
    rfl
  have htopo : buildTopoFull (reluP s a).1 s.length = [a, s.length] := by
    rw [buildTopoFull, buildTopo_succ _ (Nat.succ_ne_zero _) (by simp), hnode]
    simp only [Nat.succ_sub_one, buildTopoL]
    rw [hstep]
    rfl
  have hlt : s.length < (reluP s a).1.length := by omega
  have hbw_o : (getNode (setGrad (reluP s a).1 s.length 1) s.length).backward =
      some (.relu a s.length) := by
    rw [getNode_setGrad_self hlt, hnode]
  have hdata_o :
      (getNode (clearBackward (setGrad (reluP s a).1 s.length 1) s.length)
        s.length).data = 0 := by
    rw [data_clearBackward, data_setGrad, hnode]
  have hgrad_a :
      (getNode (clearBackward (setGrad (reluP s a).1 s.length 1) s.length)
        a).grad = (getNode s a).grad := by
    rw [grad_clearBackward, getNode_setGrad_ne hoa, hleaf]
  refine ⟨by rw [show (reluP s a).2 = s.length from rfl, hnode], ?_⟩
  rw [show (reluP s a).2 = s.length from rfl, backwardPass, htopo]
  have hrun : runClosure [] []
      (clearBackward (setGrad (reluP s a).1 s.length 1) s.length)
      (.relu a s.length) =
      .ok (setGrad (clearBackward (setGrad (reluP s a).1 s.length 1) s.length) a
        ((getNode s a).grad), []) := by
    rw [runClosure]
    simp only [List.not_mem_nil, false_or, or_self, hao, or_false, if_false,
      hdata_o, hgrad_a]
    norm_num
  have hbwa : (getNode (setGrad
      (clearBackward (setGrad (reluP s a).1 s.length 1) s.length) a
      ((getNode s a).grad)) a).backward = none := by
    rw [backward_setGrad, getNode_clearBackward_ne hoa, backward_setGrad,
      hleaf, hbk]
  have ha2 : a <
      (clearBackward (setGrad (reluP s a).1 s.length 1) s.length).length := by
    rw [length_clearBackward, length_setGrad]
    omega
  simp only [List.reverse_cons, List.reverse_nil, List.nil_append,
    List.cons_append, runNodes, stepBackward_of_some hbw_o, hrun,
    stepBackward_of_none hbwa, resultGrad, grad_clearBackward,
    getNode_setGrad_self ha2, add_zero]

/-- Spot check of `relu_at_zero` on a one-leaf store with prior gradient 5. -/
theorem relu_at_zero_spot :
    (getNode (reluP [⟨0, 5, none, [], .init⟩] 0).1
      (reluP [⟨0, 5, none, [], .init⟩] 0).2).data = 0 ∧
    resultGrad (backwardPass (reluP [⟨0, 5, none, [], .init⟩] 0).1
      (reluP [⟨0, 5, none, [], .init⟩] 0).2) 0 =
      some (getNode [⟨0, 5, none, [], .init⟩] 0).grad :=
  relu_at_zero [⟨0, 5, none, [], .init⟩] 0 (by decide) (by decide) (by decide)
    (by decide)

/-! ### Claim C4: a leaf used as both operands of one multiplication -/

/-- Claim C4: for a leaf `a` (fresh gradient 0) with value `v` used as both
operands of one multiplication, the product node's parent set collapses to
the single entry `[a]` (id deduplication), and `backward()` on the product
still applies both local partial-derivative contributions: `a`'s final
gradient is `2 * v`, not just `v`. -/
theorem square_backward_accumulates (s : Store) (a : Nat) (ha : a < s.length)
    (hgrad : (getNode s a).grad = 0) (hprev : (getNode s a).previous = [])
    (hbk : (getNode s a).backward = none) :
    (getNode (mulP s a a).1 (mulP s a a).2).previous = [a] ∧
    resultGrad (backwardPass (mulP s a a).1 (mulP s a a).2) a =
      some (2 * (getNode s a).data) := by
  have hao : a ≠ s.length := Nat.ne_of_lt ha
  have hoa : s.length ≠ a := Nat.ne_of_gt ha
  have hs1 : (mulP s a a).1 = s ++
      [⟨(getNode s a).data * (getNode s a).data, 0,
        some (.mul a a s.length (getNode s a).data (getNode s a).data),
        dedup2 a a, .mul⟩] := rfl
  have hnode : getNode (mulP s a a).1 s.length =
      ⟨(getNode s a).data * (getNode s a).data, 0,
        some (.mul a a s.length (getNode s a).data (getNode s a).data),
        [a], .mul⟩ := by
    rw [hs1, getNode_append_self]
    simp [dedup2]
  have hleaf : getNode (mulP s a a).1 a = getNode s a := by
    rw [hs1, getNode_append_lt ha]
  have hlen : (mulP s a a).1.length = s.length + 1 := by
    rw [hs1]
    simp
  have hstep : buildTopo (mulP s a a).1 s.length a ([], [s.length]) =
      ([a], [a, s.length]) := by
    rw [buildTopo_leaf (by rw [hleaf, hprev]) (by simp [hao]) (by omega)]
    rfl
  have htopo : buildTopoFull (mulP s a a).1 s.length = [a, s.length] := by
    rw [buildTopoFull, buildTopo_succ _ (Nat.succ_ne_zero _) (by simp), hnode]
    simp only [Nat.succ_sub_one, buildTopoL]
    rw [hstep]
    rfl
  have hlt : s.length < (mulP s a a).1.length := by omega
  have hbw_o : (getNode (setGrad (mulP s a a).1 s.length 1) s.length).backward =
      some (.mul a a s.length (getNode s a).data (getNode s a).data) := by
    rw [getNode_setGrad_self hlt, hnode]
  have ha1 : a < (clearBackward (setGrad (mulP s a a).1 s.length 1)
      s.length).length := by
    rw [length_clearBackward, length_setGrad]
    omega
  have h1 : (getNode (clearBackward (setGrad (mulP s a a).1 s.length 1)
      s.length) a).grad = 0 := by
    rw [grad_clearBackward, getNode_setGrad_ne hoa, hleaf, hgrad]
  have h2 : (getNode (clearBackward (setGrad (mulP s a a).1 s.length 1)
      s.length) s.length).grad = 1 := by
    rw [grad_clearBackward, getNode_setGrad_self hlt]
  have harm1 : armMul [] [] (clearBackward (setGrad (mulP s a a).1 s.length 1)
        s.length) a s.length (getNode s a).data =
      .ok (setGrad (clearBackward (setGrad (mulP s a a).1 s.length 1)
        s.length) a (0 + (getNode s a).data * 1), []) := by
    rw [armMul]
    simp only [List.not_mem_nil, or_self, if_false, hoa, or_false, h1, h2]
  have h3 : (getNode (setGrad (clearBackward (setGrad (mulP s a a).1
      s.length 1) s.length) a (0 + (getNode s a).data * 1)) a).grad =
      0 + (getNode s a).data * 1 := by
    rw [getNode_setGrad_self ha1]
  have h4 : (getNode (setGrad (clearBackward (setGrad (mulP s a a).1
      s.length 1) s.length) a (0 + (getNode s a).data * 1)) s.length).grad =
      1 := by
    rw [getNode_setGrad_ne hao, h2]
  have harm2 : armMul [] [] (setGrad (clearBackward (setGrad (mulP s a a).1
        s.length 1) s.length) a (0 + (getNode s a).data * 1)) a s.length
        (getNode s a).data =
      .ok (setGrad (setGrad (clearBackward (setGrad (mulP s a a).1 s.length 1)
        s.length) a (0 + (getNode s a).data * 1)) a
        ((0 + (getNode s a).data * 1) + (getNode s a).data * 1), []) := by
    rw [armMul]
    simp only [List.not_mem_nil, or_self, if_false, hoa, or_false, h3, h4]
  have hrun : runClosure [] [] (clearBackward (setGrad (mulP s a a).1
        s.length 1) s.length)
        (.mul a a s.length (getNode s a).data (getNode s a).data) =
      .ok (setGrad (setGrad (clearBackward (setGrad (mulP s a a).1 s.length 1)
        s.length) a (0 + (getNode s a).data * 1)) a
        ((0 + (getNode s a).data * 1) + (getNode s a).data * 1), []) := by
    simp only [runClosure, harm1, harm2, List.nil_append]
  have hbwa : (getNode (setGrad (setGrad (clearBackward (setGrad
      (mulP s a a).1 s.length 1) s.length) a (0 + (getNode s a).data * 1)) a
      ((0 + (getNode s a).data * 1) + (getNode s a).data * 1)) a).backward =
      none := by
    rw [backward_setGrad, backward_setGrad, getNode_clearBackward_ne hoa,
      backward_setGrad, hleaf, hbk]
  have ha2 : a < (setGrad (clearBackward (setGrad (mulP s a a).1 s.length 1)
      s.length) a (0 + (getNode s a).data * 1)).length := by
    rw [length_setGrad, length_clearBackward, length_setGrad]
    omega
  refine ⟨by rw [show (mulP s a a).2 = s.length from rfl, hnode], ?_⟩
  rw [show (mulP s a a).2 = s.length from rfl, backwardPass, htopo]
  simp only [List.reverse_cons, List.reverse_nil, List.nil_append,
    List.cons_append, runNodes, stepBackward_of_some hbw_o, hrun,
    stepBackward_of_none hbwa, resultGrad, grad_clearBackward,
    getNode_setGrad_self ha2]
  norm_num [two_mul]

/-- Spot check of `square_backward_accumulates` on a one-leaf store with
value 7: the square's backward pass leaves gradient 14 on the leaf. -/
theorem square_backward_accumulates_spot :
    (getNode (mulP [⟨7, 0, none, [], .init⟩] 0 0).1
      (mulP [⟨7, 0, none, [], .init⟩] 0 0).2).previous = [0] ∧
    resultGrad (backwardPass (mulP [⟨7, 0, none, [], .init⟩] 0 0).1
      (mulP [⟨7, 0, none, [], .init⟩] 0 0).2) 0 =
      some (2 * (getNode [⟨7, 0, none, [], .init⟩] 0).data) :=
  square_backward_accumulates [⟨7, 0, none, [], .init⟩] 0 (by decide)
    (by decide) (by decide) (by decide)

/-! ### The topological sort: auxiliary facts -/

theorem wf_parents {s : Store} (hW : WFStore s) {n p : Nat}
    (hp : p ∈ (getNode s n).previous) : p < n := by
  rcases Nat.lt_or_ge n s.length with h | h
  · exact hW n h p hp
  · exfalso
    rw [getNode, List.getD_eq_getElem?_getD,
      List.getElem?_eq_none (by simpa using h)] at hp
    simp at hp

theorem reach_trans {s : Store} {i j k : Nat} (h1 : Reach s i j)
    (h2 : Reach s j k) : Reach s i k := by
  induction h2 with
  | refl => exact h1
  | tail _ hp ih => exact .tail ih hp

theorem reach_parent {s : Store} {i p : Nat}
    (hp : p ∈ (getNode s i).previous) : Reach s i p :=
  .tail .refl hp

theorem reach_mem_of_closed {s : Store} {topo visited : List Nat}
    (hInv : TopoInv s topo visited) {r : Nat} (hr : r ∈ topo) :
    ∀ n, Reach s r n → n ∈ topo := by
  intro n hn
  induction hn with
  | refl => exact hr
  | tail _ hp ih => exact ((hInv.2.2 _ ih _ hp)).1

/-- Main soundness lemma for `build_topo`, by strong induction on the fuel:
given enough fuel, a call on node `i` (resp. the loop over a parent list)
extends the accumulator by a suffix of newly visited nodes, all reachable
from `i` (resp. from one of the listed parents), re-establishes the
invariant, and ends with `i` (resp. every listed parent) emitted.  The
"gray" hypothesis says every visited-but-not-yet-emitted node (an active
recursion frame) lies strictly above the node being entered, which holds
on parent-before-child stores since ids strictly decrease on the way down. -/
theorem buildTopo_sound (s : Store) (hW : WFStore s) : ∀ fuel : Nat,
    (∀ i st, i < fuel → TopoInv s st.1 st.2 →
      (∀ g ∈ st.2, g ∉ st.1 → i < g) →
      ∃ d, TopoExt s st (buildTopo s fuel i st) d ∧
        (∀ x ∈ d, Reach s i x) ∧ i ∈ (buildTopo s fuel i st).1) ∧
    (∀ ps st, (∀ c ∈ ps, c < fuel) → TopoInv s st.1 st.2 →
      (∀ g ∈ st.2, g ∉ st.1 → ∀ c ∈ ps, c < g) →
      ∃ d, TopoExt s st (buildTopoL (buildTopo s fuel) ps st) d ∧
        (∀ x ∈ d, ∃ c ∈ ps, Reach s c x) ∧
        ∀ c ∈ ps, c ∈ (buildTopoL (buildTopo s fuel) ps st).1) := by
  intro fuel
  induction fuel using Nat.strong_induction_on with
  | _ fuel IH =>
    have hP : ∀ i st, i < fuel → TopoInv s st.1 st.2 →
        (∀ g ∈ st.2, g ∉ st.1 → i < g) →
        ∃ d, TopoExt s st (buildTopo s fuel i st) d ∧
          (∀ x ∈ d, Reach s i x) ∧ i ∈ (buildTopo s fuel i st).1 := by
      intro i st hi hInv hgray
      cases fuel with
      | zero => omega
      | succ f =>
        by_cases hmem : i ∈ st.2
        · rw [buildTopo_of_mem hmem]
          have hitopo : i ∈ st.1 := by
            by_contra hni
            exact absurd (hgray i hmem hni) (lt_irrefl i)
          exact ⟨[], ⟨by simp, by simp, by simp, hInv⟩, by simp, hitopo⟩
        · have heq : buildTopo s (f + 1) i st =
              ((buildTopoL (buildTopo s f) (getNode s i).previous
                  (st.1, i :: st.2)).1 ++ [i],
               (buildTopoL (buildTopo s f) (getNode s i).previous
                  (st.1, i :: st.2)).2) := by
            rw [buildTopo_succ s (Nat.succ_ne_zero f) hmem, Nat.succ_sub_one]
          have hQf := (IH f (Nat.lt_succ_self f)).2
          have hbounds : ∀ c ∈ (getNode s i).previous, c < f := by
            intro c hc
            have := wf_parents hW hc
            omega
          have hInv2 : TopoInv s (st.1, i :: st.2).1 (st.1, i :: st.2).2 :=
            ⟨hInv.1, fun n hn => List.mem_cons_of_mem _ (hInv.2.1 n hn), hInv.2.2⟩
          have hgray2 : ∀ g ∈ (st.1, i :: st.2).2, g ∉ (st.1, i :: st.2).1 →
              ∀ c ∈ (getNode s i).previous, c < g := by
            intro g hg hgt c hc
            rcases List.mem_cons.1 hg with rfl | hg2
            · exact wf_parents hW hc
            · exact lt_trans (wf_parents hW hc) (hgray g hg2 hgt)
          obtain ⟨d1, ⟨hpre1, hvis1, hnew1, hInv1⟩, hreach1, hmemall⟩ :=
            hQf (getNode s i).previous (st.1, i :: st.2) hbounds hInv2 hgray2
          have hitopo : i ∉ st.1 := fun hin => hmem (hInv.2.1 i hin)
          have hid1 : i ∉ d1 := fun hin => hnew1 i hin (List.mem_cons_self i _)
          have hiT1 : i ∉ (buildTopoL (buildTopo s f) (getNode s i).previous
              (st.1, i :: st.2)).1 := by
            rw [hpre1]
            simp only [List.mem_append]
            rintro (h | h)
            · exact hitopo h
            · exact hid1 h
          refine ⟨d1 ++ [i], ⟨?_, ?_, ?_, ?_, ?_, ?_⟩, ?_, ?_⟩
          · rw [heq]
            simp only [hpre1, List.append_assoc]
          · intro x
            rw [heq]
            have := hvis1 x
            simp only [List.mem_cons] at this
            simp only [List.mem_append, List.mem_singleton, this]
            tauto
          · intro x hx
            rcases List.mem_append.1 hx with hx1 | hx1
            · intro hxv
              exact hnew1 x hx1 (List.mem_cons_of_mem _ hxv)
            · rw [List.mem_singleton.1 hx1]
              exact hmem
          · -- Nodup
            rw [heq]
            refine List.nodup_append.2 ⟨hInv1.1, List.nodup_singleton i, ?_⟩
            intro x hx hxi
            rw [List.mem_singleton.1 hxi] at hx
            exact hiT1 hx
          · -- subset visited
            rw [heq]
            intro n hn
            rcases List.mem_append.1 hn with hn1 | hn1
            · exact hInv1.2.1 n hn1
            · rw [List.mem_singleton.1 hn1, hvis1]
              exact Or.inl (List.mem_cons_self i _)
          · -- parents precede
            rw [heq]
            intro n hn p hp
            rcases List.mem_append.1 hn with hn1 | hn1
            · obtain ⟨hpmem, hidx⟩ := hInv1.2.2 n hn1 p hp
              refine ⟨List.mem_append_left _ hpmem, ?_⟩
              rw [List.indexOf_append_of_mem hpmem,
                List.indexOf_append_of_mem hn1]
              exact hidx
            · rw [List.mem_singleton.1 hn1] at hp ⊢
              have hpmem := hmemall p hp
              refine ⟨List.mem_append_left _ hpmem, ?_⟩
              rw [List.indexOf_append_of_mem hpmem,
                List.indexOf_append_of_not_mem hiT1, List.indexOf_cons_self]
              have := List.indexOf_lt_length.2 hpmem
              omega
          · intro x hx
            rcases List.mem_append.1 hx with hx1 | hx1
            · obtain ⟨c, hc, hcx⟩ := hreach1 x hx1
              exact reach_trans (reach_parent hc) hcx
            · rw [List.mem_singleton.1 hx1]
              exact .refl
          · rw [heq]
            exact List.mem_append_right _ (List.mem_singleton.2 rfl)
    refine ⟨hP, ?_⟩
    intro ps
    induction ps with
    | nil =>
      intro st hb hInv hgray
      exact ⟨[], ⟨by simp [buildTopoL], fun x => by simp [buildTopoL],
        by simp, by simpa [buildTopoL] using hInv⟩, by simp, by simp⟩
    | cons p rest ihrest =>
      intro st hb hInv hgray
      obtain ⟨dp, ⟨hpreP, hvisP, hnewP, hInvP⟩, hreachP, hmemP⟩ :=
        hP p st (hb p (List.mem_cons_self p rest)) hInv
          (fun g hg hgt => hgray g hg hgt p (List.mem_cons_self p rest))
      have hgrayR : ∀ g ∈ (buildTopo s fuel p st).2,
          g ∉ (buildTopo s fuel p st).1 → ∀ c ∈ rest, c < g := by
        intro g hg hgt c hc
        have hg2 := (hvisP g).1 hg
        have hgnp : g ∉ dp := by
          intro hgd
          exact hgt (by rw [hpreP]; exact List.mem_append_right _ hgd)
        have hgns : g ∉ st.1 := by
          intro hgs
          exact hgt (by rw [hpreP]; exact List.mem_append_left _ hgs)
        rcases hg2 with hg3 | hg3
        · exact hgray g hg3 hgns c (List.mem_cons_of_mem _ hc)
        · exact absurd hg3 hgnp
      obtain ⟨dr, ⟨hpreR, hvisR, hnewR, hInvR⟩, hreachR, hmemR⟩ :=
        ihrest (buildTopo s fuel p st) (fun c hc => hb c (List.mem_cons_of_mem _ hc))
          hInvP hgrayR
      have heqL : buildTopoL (buildTopo s fuel) (p :: rest) st =
          buildTopoL (buildTopo s fuel) rest (buildTopo s fuel p st) := rfl
      refine ⟨dp ++ dr, ⟨?_, ?_, ?_, ?_⟩, ?_, ?_⟩
      · rw [heqL, hpreR, hpreP, List.append_assoc]
      · intro x
        rw [heqL, hvisR x, hvisP x]
        simp only [List.mem_append]
        tauto
      · intro x hx hxv
        rcases List.mem_append.1 hx with hx1 | hx1
        · exact hnewP x hx1 hxv
        · exact hnewR x hx1 ((hvisP x).2 (Or.inl hxv))
      · rw [heqL]
        exact hInvR
      · intro x hx
        rcases List.mem_append.1 hx with hx1 | hx1
        · exact ⟨p, List.mem_cons_self p rest, hreachP x hx1⟩
        · obtain ⟨c, hc, hcx⟩ := hreachR x hx1
          exact ⟨c, List.mem_cons_of_mem _ hc, hcx⟩
      · intro c hc
        rcases List.mem_cons.1 hc with rfl | hc2
        · rw [heqL, hpreR]
          exact List.mem_append_left _ hmemP
        · rw [heqL]
          exact hmemR c hc2

/-- Specification of the full topological sort started from terminal `r`
with empty accumulators, on a parents-before-children store. -/
theorem buildTopoFull_spec (s : Store) (hW : WFStore s) (r : Nat) :
    (buildTopoFull s r).Nodup ∧
    (∀ n, n ∈ buildTopoFull s r ↔ Reach s r n) ∧
    ∀ n ∈ buildTopoFull s r, ∀ p ∈ (getNode s n).previous,
      p ∈ buildTopoFull s r ∧
      (buildTopoFull s r).indexOf p < (buildTopoFull s r).indexOf n := by
  obtain ⟨d, ⟨hpre, hvis, hnew, hInv⟩, hreach, hmem⟩ :=
    (buildTopo_sound s hW (r + 1)).1 r ([], []) (Nat.lt_succ_self r)
      ⟨List.nodup_nil, by simp, by simp⟩ (by simp)
  refine ⟨hInv.1, fun n => ⟨?_, ?_⟩, hInv.2.2⟩
  · intro hn
    have : n ∈ d := by
      have := hpre
      simp only [List.nil_append] at this
      rwa [show buildTopoFull s r = (buildTopo s (r + 1) r ([], [])).1 from rfl,
        this] at hn
    exact hreach n this
  · exact fun hn => reach_mem_of_closed hInv hmem n hn

/-- Claim C3: for every terminal handle `r` on a store whose nodes list
only previously built nodes as parents (every store the operators build is
such), the order produced by `build_topo` contains each node reachable
through the `previous` relation exactly once, and every parent of a listed
node appears strictly earlier in the order than the node itself. -/
theorem build_topo_postorder (s : Store) (hW : WFStore s) (r : Nat) :
    (∀ n, Reach s r n → (buildTopoFull s r).count n = 1) ∧
    (∀ n ∈ buildTopoFull s r, Reach s r n) ∧
    ∀ n ∈ buildTopoFull s r, ∀ p ∈ (getNode s n).previous,
      (buildTopoFull s r).indexOf p < (buildTopoFull s r).indexOf n := by
  obtain ⟨hnd, hiff, hord⟩ := buildTopoFull_spec s hW r
  exact ⟨fun n hn => List.count_eq_one_of_mem hnd ((hiff n).2 hn),
    fun n hn => (hiff n).1 hn,
    fun n hn p hp => (hord n hn p hp).2⟩

/-- Spot check of `build_topo_postorder` on the `test_sanity_check` graph:
node 0 (`x`) appears in the topological order of node 13 (`y`) and is hence
reachable. -/
theorem build_topo_postorder_spot : Reach sanityStore 13 0 :=
  (build_topo_postorder sanityStore (by decide) 13).2.1 0 (by decide)

/-! ### Frame lemmas for the backward executor -/

theorem preservesShape_refl (s : Store) : PreservesShape s s :=
  ⟨rfl, fun _ => ⟨rfl, rfl, rfl⟩⟩

theorem preservesShape_trans {s t u : Store} (h1 : PreservesShape s t)
    (h2 : PreservesShape t u) : PreservesShape s u :=
  ⟨h2.1.trans h1.1, fun i =>
    ⟨(h2.2 i).1.trans (h1.2 i).1, (h2.2 i).2.1.trans (h1.2 i).2.1,
     (h2.2 i).2.2.trans (h1.2 i).2.2⟩⟩

theorem preservesShape_setGrad (s : Store) (i : Nat) (g : ℤ) :
    PreservesShape s (setGrad s i g) :=
  ⟨length_setGrad s i g, fun j =>
    ⟨data_setGrad s i g j, previous_setGrad s i g j, op_setGrad s i g j⟩⟩

theorem preservesShape_clearBackward (s : Store) (i : Nat) :
    PreservesShape s (clearBackward s i) :=
  ⟨length_clearBackward s i, fun j =>
    ⟨data_clearBackward s i j, previous_clearBackward s i j,
     op_clearBackward s i j⟩⟩

theorem armAdd_ok {mutB sharedB : List Nat} {s : Store} {p o : Nat}
    {s' : Store} {log : List String}
    (h : armAdd mutB sharedB s p o = .ok (s', log)) :
    PreservesShape s s' ∧
    ∀ i, (getNode s' i).backward = (getNode s i).backward := by
  rw [armAdd] at h
  split at h
  · split at h
    · cases h
    · cases h
      exact ⟨preservesShape_refl s, fun _ => rfl⟩
  · split at h
    · cases h
    · cases h
      exact ⟨preservesShape_setGrad s p _, fun i => backward_setGrad s p _ i⟩

theorem armMul_ok {mutB sharedB : List Nat} {s : Store} {p o : Nat} {od : ℤ}
    {s' : Store} {log : List String}
    (h : armMul mutB sharedB s p o od = .ok (s', log)) :
    PreservesShape s s' ∧
    ∀ i, (getNode s' i).backward = (getNode s i).backward := by
  rw [armMul] at h
  split at h
  · split at h
    · cases h
    · cases h
      exact ⟨preservesShape_refl s, fun _ => rfl⟩
  · split at h
    · cases h
    · cases h
      exact ⟨preservesShape_setGrad s p _, fun i => backward_setGrad s p _ i⟩

theorem runClosure_ok {mutB sharedB : List Nat} {s : Store} {c : BackClosure}
    {s' : Store} {log : List String}
    (h : runClosure mutB sharedB s c = .ok (s', log)) :
    PreservesShape s s' ∧
    ∀ i, (getNode s' i).backward = (getNode s i).backward := by
  cases c with
  | add a b o =>
    rw [runClosure] at h
    cases h1 : armAdd mutB sharedB s a o with
    | error e =>
      simp only [h1] at h
      cases h
    | ok pr1 =>
      obtain ⟨s1, l1⟩ := pr1
      simp only [h1] at h
      cases h2 : armAdd mutB sharedB s1 b o with
      | error e =>
        simp only [h2] at h
        cases h
      | ok pr2 =>
        obtain ⟨s2, l2⟩ := pr2
        simp only [h2] at h
        cases h
        obtain ⟨hs1, hb1⟩ := armAdd_ok h1
        obtain ⟨hs2, hb2⟩ := armAdd_ok h2
        exact ⟨preservesShape_trans hs1 hs2,
          fun i => (hb2 i).trans (hb1 i)⟩
  | mul a b o da db =>
    rw [runClosure] at h
    cases h1 : armMul mutB sharedB s a o db with
    | error e =>
      simp only [h1] at h
      cases h
    | ok pr1 =>
      obtain ⟨s1, l1⟩ := pr1
      simp only [h1] at h
      cases h2 : armMul mutB sharedB s1 b o da with
      | error e =>
        simp only [h2] at h
        cases h
      | ok pr2 =>
        obtain ⟨s2, l2⟩ := pr2
        simp only [h2] at h
        cases h
        obtain ⟨hs1, hb1⟩ := armMul_ok h1
        obtain ⟨hs2, hb2⟩ := armMul_ok h2
        exact ⟨preservesShape_trans hs1 hs2,
          fun i => (hb2 i).trans (hb1 i)⟩
  | relu a o =>
    rw [runClosure] at h
    split at h
    · cases h
    · split at h
      · cases h
      · cases h
        exact ⟨preservesShape_setGrad s a _, fun i => backward_setGrad s a _ i⟩

theorem stepBackward_ok {s : Store} {n : Nat} {s' : Store} {log : List String}
    (h : stepBackward s n = .ok (s', log)) :
    PreservesShape s s' ∧
    (getNode s' n).backward = none ∧
    ∀ i, (getNode s i).backward = none → (getNode s' i).backward = none := by
  rw [stepBackward] at h
  cases hc : (getNode s n).backward with
  | none =>
    simp only [hc] at h
    cases h
    exact ⟨preservesShape_clearBackward s n, backward_clearBackward_self s n,
      fun i hi => backward_clearBackward_mono hi n⟩
  | some cl =>
    simp only [hc] at h
    obtain ⟨hs, hb⟩ := runClosure_ok h
    refine ⟨preservesShape_trans (preservesShape_clearBackward s n) hs, ?_, ?_⟩
    · rw [hb n, backward_clearBackward_self]
    · intro i hi
      rw [hb i]
      exact backward_clearBackward_mono hi n

theorem runNodes_ok {l : List Nat} : ∀ {s s' : Store} {log : List String},
    runNodes s l = .ok (s', log) →
    PreservesShape s s' ∧
    (∀ n ∈ l, (getNode s' n).backward = none) ∧
    ∀ i, (getNode s i).backward = none → (getNode s' i).backward = none := by
  induction l with
  | nil =>
    intro s s' log h
    rw [runNodes] at h
    cases h
    exact ⟨preservesShape_refl s, by simp, fun _ hi => hi⟩
  | cons n rest ih =>
    intro s s' log h
    rw [runNodes] at h
    cases h1 : stepBackward s n with
    | error e =>
      simp only [h1] at h
      cases h
    | ok pr1 =>
      obtain ⟨s1, l1⟩ := pr1
      simp only [h1] at h
      cases h2 : runNodes s1 rest with
      | error e =>
        simp only [h2] at h
        cases h
      | ok pr2 =>
        obtain ⟨s2, l2⟩ := pr2
        simp only [h2] at h
        cases h
        obtain ⟨hsh1, hbn, hmono1⟩ := stepBackward_ok h1
        obtain ⟨hsh2, hrest, hmono2⟩ := ih h2
        refine ⟨preservesShape_trans hsh1 hsh2, ?_,
          fun i hi => hmono2 i (hmono1 i hi)⟩
        intro m hm
        rcases List.mem_cons.1 hm with rfl | hm2
        · exact hmono2 m hbn
        · exact hrest m hm2

/-- Claim C9: a completed backward pass creates and destroys no nodes, and
mutates only gradients and backward-closure slots: the store keeps its
length, every node keeps its `data`, `previous` and `op` (its id is its
index, which `List.set` never moves), and the closure slot of every node
reachable from the terminal has been taken (drained to `none`). -/
theorem backward_pass_frame (s : Store) (r : Nat) (hW : WFStore s)
    (s' : Store) (log : List String) (h : backwardPass s r = .ok (s', log)) :
    s'.length = s.length ∧
    (∀ i, (getNode s' i).data = (getNode s i).data ∧
      (getNode s' i).previous = (getNode s i).previous ∧
      (getNode s' i).op = (getNode s i).op) ∧
    ∀ n, Reach s r n → (getNode s' n).backward = none := by
  simp only [backwardPass] at h
  obtain ⟨hsh, hslots, _⟩ := runNodes_ok h
  have hsh2 := preservesShape_trans (preservesShape_setGrad s r 1) hsh
  refine ⟨hsh2.1, hsh2.2, ?_⟩
  intro n hn
  have hmem : n ∈ buildTopoFull s r := ((buildTopoFull_spec s hW r).2.1 n).2 hn
  exact hslots n (List.mem_reverse.2 hmem)

/-- Spot check of `backward_pass_frame` on a single-leaf store: the pass
returns the store with only the gradient seeded, and the leaf's fields are
untouched with the slot empty. -/
theorem backward_pass_frame_spot :
    (getNode ([⟨5, 1, none, [], .init⟩] : Store) 0).data =
      (getNode ([⟨5, 0, none, [], .init⟩] : Store) 0).data ∧
    (getNode ([⟨5, 1, none, [], .init⟩] : Store) 0).backward = none :=
  ⟨((backward_pass_frame [⟨5, 0, none, [], .init⟩] 0 (by decide)
      [⟨5, 1, none, [], .init⟩] [] rfl).2.1 0).1,
   (backward_pass_frame [⟨5, 0, none, [], .init⟩] 0 (by decide)
      [⟨5, 1, none, [], .init⟩] [] rfl).2.2 0 .refl⟩
